import Mathlib

/-!
Verification of the bytewords codec and decode pipeline of RestartFU/go-bc-ur
(src/bytewords.go), as a shallow embedding: Go byte strings are lists of
naturals (each below 256), Go errors are explicit sum types, Go runtime
panics and log.Fatal aborts are explicit outcome constructors.
-/

namespace BCUR

set_option maxRecDepth 16000

/-- The 1024-character bytewords alphabet constant (source line 18,
variable bytewords): 256 four-letter words concatenated in byte-value order. -/
def bytewordsAlphabet : String := "ableacidalsoapexaquaarchatomauntawayaxisbackbaldbarnbeltbetabiasbluebodybragbrewbulbbuzzcalmcashcatschefcityclawcodecolacookcostcruxcurlcuspcyandarkdatadaysdelidicedietdoordowndrawdropdrumdulldutyeacheasyechoedgeepicevenexamexiteyesfactfairfernfigsfilmfishfizzflapflewfluxfoxyfreefrogfuelfundgalagamegeargemsgiftgirlglowgoodgraygrimgurugushgyrohalfhanghardhawkheathelphighhillholyhopehornhutsicedideaidleinchinkyintoirisironitemjadejazzjoinjoltjowljudojugsjumpjunkjurykeepkenokeptkeyskickkilnkingkitekiwiknoblamblavalazyleaflegsliarlimplionlistlogoloudloveluaulucklungmainmanymathmazememomenumeowmildmintmissmonknailnavyneednewsnextnoonnotenumbobeyoboeomitonyxopenovalowlspaidpartpeckplaypluspoempoolposepuffpumapurrquadquizraceramprealredorichroadrockroofrubyruinrunsrustsafesagascarsetssilkskewslotsoapsolosongstubsurfswantacotasktaxitenttiedtimetinytoiltombtoystriptunatwinuglyundouniturgeuservastveryvetovialvibeviewvisavoidvowswallwandwarmwaspwavewaxywebswhatwhenwhizwolfworkyankyawnyellyogayurtzapszerozestzinczonezoom"

/-- Byte values of the alphabet characters. -/
def alpha : List Nat := bytewordsAlphabet.data.map Char.toNat

set_option maxHeartbeats 2000000 in
/-- Byte values of the alphabet characters, as an explicit literal; theorem
alpha_eq checks it equals the list derived from the alphabet string. -/
def alphaLit : List Nat := [
  97, 98, 108, 101, 97, 99, 105, 100, 97, 108, 115, 111, 97, 112, 101, 120, 97, 113, 117, 97, 97, 114, 99, 104, 97, 116, 111, 109, 97, 117, 110, 116,
  97, 119, 97, 121, 97, 120, 105, 115, 98, 97, 99, 107, 98, 97, 108, 100, 98, 97, 114, 110, 98, 101, 108, 116, 98, 101, 116, 97, 98, 105, 97, 115,
  98, 108, 117, 101, 98, 111, 100, 121, 98, 114, 97, 103, 98, 114, 101, 119, 98, 117, 108, 98, 98, 117, 122, 122, 99, 97, 108, 109, 99, 97, 115, 104,
  99, 97, 116, 115, 99, 104, 101, 102, 99, 105, 116, 121, 99, 108, 97, 119, 99, 111, 100, 101, 99, 111, 108, 97, 99, 111, 111, 107, 99, 111, 115, 116,
  99, 114, 117, 120, 99, 117, 114, 108, 99, 117, 115, 112, 99, 121, 97, 110, 100, 97, 114, 107, 100, 97, 116, 97, 100, 97, 121, 115, 100, 101, 108, 105,
  100, 105, 99, 101, 100, 105, 101, 116, 100, 111, 111, 114, 100, 111, 119, 110, 100, 114, 97, 119, 100, 114, 111, 112, 100, 114, 117, 109, 100, 117, 108, 108,
  100, 117, 116, 121, 101, 97, 99, 104, 101, 97, 115, 121, 101, 99, 104, 111, 101, 100, 103, 101, 101, 112, 105, 99, 101, 118, 101, 110, 101, 120, 97, 109,
  101, 120, 105, 116, 101, 121, 101, 115, 102, 97, 99, 116, 102, 97, 105, 114, 102, 101, 114, 110, 102, 105, 103, 115, 102, 105, 108, 109, 102, 105, 115, 104,
  102, 105, 122, 122, 102, 108, 97, 112, 102, 108, 101, 119, 102, 108, 117, 120, 102, 111, 120, 121, 102, 114, 101, 101, 102, 114, 111, 103, 102, 117, 101, 108,
  102, 117, 110, 100, 103, 97, 108, 97, 103, 97, 109, 101, 103, 101, 97, 114, 103, 101, 109, 115, 103, 105, 102, 116, 103, 105, 114, 108, 103, 108, 111, 119,
  103, 111, 111, 100, 103, 114, 97, 121, 103, 114, 105, 109, 103, 117, 114, 117, 103, 117, 115, 104, 103, 121, 114, 111, 104, 97, 108, 102, 104, 97, 110, 103,
  104, 97, 114, 100, 104, 97, 119, 107, 104, 101, 97, 116, 104, 101, 108, 112, 104, 105, 103, 104, 104, 105, 108, 108, 104, 111, 108, 121, 104, 111, 112, 101,
  104, 111, 114, 110, 104, 117, 116, 115, 105, 99, 101, 100, 105, 100, 101, 97, 105, 100, 108, 101, 105, 110, 99, 104, 105, 110, 107, 121, 105, 110, 116, 111,
  105, 114, 105, 115, 105, 114, 111, 110, 105, 116, 101, 109, 106, 97, 100, 101, 106, 97, 122, 122, 106, 111, 105, 110, 106, 111, 108, 116, 106, 111, 119, 108,
  106, 117, 100, 111, 106, 117, 103, 115, 106, 117, 109, 112, 106, 117, 110, 107, 106, 117, 114, 121, 107, 101, 101, 112, 107, 101, 110, 111, 107, 101, 112, 116,
  107, 101, 121, 115, 107, 105, 99, 107, 107, 105, 108, 110, 107, 105, 110, 103, 107, 105, 116, 101, 107, 105, 119, 105, 107, 110, 111, 98, 108, 97, 109, 98,
  108, 97, 118, 97, 108, 97, 122, 121, 108, 101, 97, 102, 108, 101, 103, 115, 108, 105, 97, 114, 108, 105, 109, 112, 108, 105, 111, 110, 108, 105, 115, 116,
  108, 111, 103, 111, 108, 111, 117, 100, 108, 111, 118, 101, 108, 117, 97, 117, 108, 117, 99, 107, 108, 117, 110, 103, 109, 97, 105, 110, 109, 97, 110, 121,
  109, 97, 116, 104, 109, 97, 122, 101, 109, 101, 109, 111, 109, 101, 110, 117, 109, 101, 111, 119, 109, 105, 108, 100, 109, 105, 110, 116, 109, 105, 115, 115,
  109, 111, 110, 107, 110, 97, 105, 108, 110, 97, 118, 121, 110, 101, 101, 100, 110, 101, 119, 115, 110, 101, 120, 116, 110, 111, 111, 110, 110, 111, 116, 101,
  110, 117, 109, 98, 111, 98, 101, 121, 111, 98, 111, 101, 111, 109, 105, 116, 111, 110, 121, 120, 111, 112, 101, 110, 111, 118, 97, 108, 111, 119, 108, 115,
  112, 97, 105, 100, 112, 97, 114, 116, 112, 101, 99, 107, 112, 108, 97, 121, 112, 108, 117, 115, 112, 111, 101, 109, 112, 111, 111, 108, 112, 111, 115, 101,
  112, 117, 102, 102, 112, 117, 109, 97, 112, 117, 114, 114, 113, 117, 97, 100, 113, 117, 105, 122, 114, 97, 99, 101, 114, 97, 109, 112, 114, 101, 97, 108,
  114, 101, 100, 111, 114, 105, 99, 104, 114, 111, 97, 100, 114, 111, 99, 107, 114, 111, 111, 102, 114, 117, 98, 121, 114, 117, 105, 110, 114, 117, 110, 115,
  114, 117, 115, 116, 115, 97, 102, 101, 115, 97, 103, 97, 115, 99, 97, 114, 115, 101, 116, 115, 115, 105, 108, 107, 115, 107, 101, 119, 115, 108, 111, 116,
  115, 111, 97, 112, 115, 111, 108, 111, 115, 111, 110, 103, 115, 116, 117, 98, 115, 117, 114, 102, 115, 119, 97, 110, 116, 97, 99, 111, 116, 97, 115, 107,
  116, 97, 120, 105, 116, 101, 110, 116, 116, 105, 101, 100, 116, 105, 109, 101, 116, 105, 110, 121, 116, 111, 105, 108, 116, 111, 109, 98, 116, 111, 121, 115,
  116, 114, 105, 112, 116, 117, 110, 97, 116, 119, 105, 110, 117, 103, 108, 121, 117, 110, 100, 111, 117, 110, 105, 116, 117, 114, 103, 101, 117, 115, 101, 114,
  118, 97, 115, 116, 118, 101, 114, 121, 118, 101, 116, 111, 118, 105, 97, 108, 118, 105, 98, 101, 118, 105, 101, 119, 118, 105, 115, 97, 118, 111, 105, 100,
  118, 111, 119, 115, 119, 97, 108, 108, 119, 97, 110, 100, 119, 97, 114, 109, 119, 97, 115, 112, 119, 97, 118, 101, 119, 97, 120, 121, 119, 101, 98, 115,
  119, 104, 97, 116, 119, 104, 101, 110, 119, 104, 105, 122, 119, 111, 108, 102, 119, 111, 114, 107, 121, 97, 110, 107, 121, 97, 119, 110, 121, 101, 108, 108,
  121, 111, 103, 97, 121, 117, 114, 116, 122, 97, 112, 115, 122, 101, 114, 111, 122, 101, 115, 116, 122, 105, 110, 99, 122, 111, 110, 101, 122, 111, 111, 109]

set_option maxHeartbeats 2000000 in
set_option maxRecDepth 8000 in
theorem alpha_eq : alpha = alphaLit := by decide

/-- Entry i of the words array built by init (source lines 25-27):
words[i] = bytewords[i*4 : i*4+4], as a list of 4 byte values (via the
literal alphabet, which alpha_eq ties to the source string). -/
def wordForByte (i : Nat) : List Nat := (alphaLit.drop (4 * i)).take 4

/-- One iteration of the init lookup loop (source lines 33-38): write
index i at offset (w[3]-'a')*26 + (w[0]-'a'). -/
def setWord (t : List Int) (i : Nat) : List Int :=
  let w := wordForByte i
  t.set ((w.getD 3 0 - 97) * 26 + (w.getD 0 0 - 97)) (Int.ofNat i)

/-- The lookup table as built by init (source lines 30-38): a 676-entry
int16 array initialized to -1, then filled from the words array. -/
def buildLookupTable : List Int := (List.range 256).foldl setWord (List.replicate 676 (-1))

/-- Raw encoding of the lookup table literal: entry value plus one, so 0
stands for the int16 sentinel -1. -/
def lookupTableRaw : List Nat := [
  5, 15, 30, 38, 0, 0, 74, 0, 100, 0, 0, 129, 0, 0, 0, 178, 0, 0, 195, 218, 0, 231, 0, 0, 249, 0, 0, 21, 0, 0,
  0, 0, 0, 0, 0, 0, 127, 128, 0, 161, 0, 0, 0, 0, 204, 215, 0, 0, 0, 0, 0, 0, 0, 0, 0, 0, 54, 0, 0, 0,
  0, 0, 0, 0, 0, 0, 0, 0, 0, 0, 0, 0, 0, 0, 0, 0, 0, 254, 2, 12, 0, 0, 0, 73, 81, 89, 99, 0, 0, 138,
  150, 156, 0, 169, 180, 187, 0, 211, 0, 232, 235, 0, 0, 0, 1, 17, 29, 41, 53, 70, 75, 96, 101, 108, 125, 139, 146, 160, 163, 176,
  0, 182, 194, 212, 223, 229, 238, 0, 0, 255, 0, 0, 26, 0, 0, 0, 0, 87, 0, 0, 0, 131, 0, 0, 0, 177, 0, 189, 205, 0,
  0, 0, 244, 0, 0, 0, 0, 19, 0, 0, 0, 71, 0, 88, 0, 0, 124, 142, 0, 0, 0, 0, 0, 0, 203, 0, 0, 0, 0, 0,
  0, 0, 6, 0, 24, 0, 50, 64, 85, 93, 102, 0, 0, 0, 145, 0, 0, 0, 0, 186, 0, 0, 0, 0, 0, 0, 0, 0, 0, 0,
  0, 40, 0, 0, 0, 0, 0, 0, 126, 0, 0, 0, 0, 0, 0, 0, 0, 209, 0, 0, 0, 0, 0, 0, 0, 0, 0, 0, 0, 0,
  0, 0, 0, 0, 0, 0, 0, 0, 0, 0, 0, 0, 0, 0, 0, 0, 0, 0, 0, 0, 0, 11, 31, 37, 0, 0, 0, 90, 0, 116,
  122, 141, 153, 0, 0, 171, 0, 188, 198, 208, 0, 0, 245, 0, 246, 0, 0, 0, 34, 48, 0, 72, 79, 94, 0, 112, 0, 0, 0, 154,
  167, 175, 0, 184, 0, 214, 0, 228, 234, 0, 248, 0, 7, 0, 23, 47, 56, 63, 83, 0, 107, 0, 0, 0, 0, 0, 0, 174, 0, 0,
  0, 0, 0, 0, 236, 0, 0, 256, 0, 13, 36, 44, 55, 61, 0, 97, 106, 110, 123, 135, 143, 159, 166, 0, 0, 191, 206, 219, 0, 0,
  242, 0, 247, 0, 3, 0, 0, 0, 52, 0, 86, 0, 104, 113, 119, 137, 147, 0, 0, 0, 0, 185, 202, 207, 221, 227, 0, 0, 0, 252,
  0, 0, 35, 46, 0, 66, 0, 92, 0, 115, 118, 134, 0, 0, 0, 0, 0, 183, 201, 217, 0, 0, 237, 0, 0, 0, 0, 0, 0, 0,
  0, 0, 0, 0, 0, 0, 0, 0, 0, 0, 0, 0, 0, 0, 0, 0, 0, 0, 0, 0, 0, 0, 0, 0, 0, 43, 0, 60, 76, 0,
  0, 0, 0, 133, 0, 0, 0, 179, 0, 0, 196, 0, 224, 0, 0, 0, 0, 0, 10, 16, 25, 39, 58, 62, 77, 98, 105, 114, 121, 132,
  152, 157, 168, 173, 0, 192, 197, 216, 0, 233, 240, 0, 0, 251, 8, 14, 32, 42, 57, 59, 78, 91, 0, 111, 120, 136, 151, 158, 164, 170,
  0, 193, 200, 210, 222, 225, 241, 0, 250, 253, 0, 0, 0, 0, 0, 0, 84, 0, 0, 0, 0, 140, 148, 0, 0, 0, 0, 0, 0, 0,
  0, 0, 0, 0, 0, 0, 0, 0, 0, 0, 0, 0, 0, 0, 0, 0, 0, 0, 0, 0, 0, 0, 0, 0, 0, 0, 0, 0, 0, 0,
  0, 0, 0, 20, 28, 45, 0, 67, 80, 0, 0, 0, 0, 0, 149, 0, 0, 0, 0, 0, 199, 0, 0, 230, 0, 0, 0, 0, 4, 0,
  33, 0, 0, 68, 0, 0, 0, 0, 0, 0, 0, 0, 165, 0, 0, 0, 0, 0, 0, 0, 0, 0, 0, 0, 9, 18, 27, 49, 51, 69,
  82, 95, 103, 117, 0, 130, 144, 155, 162, 172, 0, 190, 0, 213, 220, 226, 239, 0, 0, 0, 0, 22, 0, 0, 0, 65, 0, 0, 0, 109,
  0, 0, 0, 0, 0, 0, 181, 0, 0, 0, 0, 0, 243, 0, 0, 0]

/-- The lookup table, as an explicit literal (entries decoded back to the
int16 values, -1 for empty); theorem buildLookupTable_eq checks entry by
entry that this is exactly what the init loop produces. -/
def lookupTable : List Int := lookupTableRaw.map (fun n => Int.ofNat n - 1)

set_option maxHeartbeats 4000000 in
set_option maxRecDepth 4000 in
theorem buildLookupTable_eq : buildLookupTable = lookupTable := by decide

/-- Modelled from the spec: case is normalized before lookup via Go's
stdlib unicode.ToLower, applied to runes built from single bytes, so only
the ASCII range A-Z and the Latin-1 uppercase range C0-DE (minus the
multiplication sign D7) map down by 32; every other byte is unchanged. -/
def goToLower (c : Nat) : Nat :=
  if 65 ≤ c ∧ c ≤ 90 then c + 32
  else if 192 ≤ c ∧ c ≤ 222 ∧ c ≠ 215 then c + 32
  else c

/-- Error values of the bytewords decoder, one constructor per errors.New
site in the source: "invalid bytewords length" (malformedLen, line 112),
"invalid bytewords" at the a-z range check (outOfAlphabet, line 122) and at
the table miss (unknownWord, line 127) - two distinct Go error values with
the same text, split here the way the spec splits MalformedToken and
UnknownWord - "invalid bytewords middle chars" (corruptWord, line 132),
"too short" (tooShort, line 193) and "crc mismatch" (crcMismatch, line 198). -/
inductive BWErr where
  | malformedLen
  | outOfAlphabet
  | unknownWord
  | corruptWord
  | tooShort
  | crcMismatch
deriving DecidableEq, Repr

deriving instance DecidableEq, Repr for Except

/-- decodeWord (source lines 110-136): decode a single token given the
expected word length (2 for minimal, 4 for standard). Indexing word[0],
word[1], word[3] only happens after the length check, so getD defaults are
never used. -/
def decodeWord (word : List Nat) (wordLen : Nat) : Except BWErr Nat :=
  if word.length ≠ wordLen then .error .malformedLen
  else
    let x : Int := (goToLower (word.getD 0 0) : Int) - 97
    let y : Int :=
      if wordLen = 4 then (goToLower (word.getD 3 0) : Int) - 97
      else (goToLower (word.getD 1 0) : Int) - 97
    if x < 0 ∨ 26 ≤ x ∨ y < 0 ∨ 26 ≤ y then .error .outOfAlphabet
    else
      let val : Int := lookupTable.getD (y * 26 + x).toNat (-1)
      if val = -1 then .error .unknownWord
      else if wordLen = 4 ∧
          (word.getD 1 0 ≠ (wordForByte val.toNat).getD 1 0 ∨
           word.getD 2 0 ≠ (wordForByte val.toNat).getD 2 0) then
        .error .corruptWord
      else .ok val.toNat

/-- Modelled from the spec: CRC-32 with the IEEE polynomial as computed by
Go's stdlib hash/crc32.ChecksumIEEE (reflected polynomial 0xEDB88320,
initial value and final xor 0xFFFFFFFF); one bit step of the division. -/
def crcBit (c : Nat) : Nat := if c % 2 = 1 then (c / 2) ^^^ 0xEDB88320 else c / 2

/-- Eight bit steps: folds one input byte into the running CRC-32. -/
def crc32Update (crc b : Nat) : Nat :=
  crcBit (crcBit (crcBit (crcBit (crcBit (crcBit (crcBit (crcBit (crc ^^^ b % 256))))))))

/-- CRC-32 (IEEE) of a byte sequence; crc32.ChecksumIEEE of the source. -/
def crc32IEEE (data : List Nat) : Nat :=
  0xFFFFFFFF ^^^ data.foldl crc32Update 0xFFFFFFFF

/-- Modelled from the spec: binary.BigEndian.PutUint32 (stdlib) - the four
bytes of v most significant first, each truncated to a byte like Go's
byte(v >> k). -/
def putUint32BE (v : Nat) : List Nat :=
  [v / 2 ^ 24 % 256, v / 2 ^ 16 % 256, v / 2 ^ 8 % 256, v % 256]

/-- crc32Bytes (source lines 139-144): big-endian serialization of the
CRC-32 of data. -/
def crc32Bytes (data : List Nat) : List Nat := putUint32BE (crc32IEEE data)

/-- appendCRC (source lines 146-148). -/
def appendCRC (data : List Nat) : List Nat := data ++ crc32Bytes data

/-- The two characters encodeMinimal emits for one byte: w[0] and w[3] of
its word (source lines 155-157). -/
def minimalChars (b : Nat) : List Nat :=
  [(wordForByte b).getD 0 0, (wordForByte b).getD 3 0]

/-- encodeMinimal (source lines 151-160): append the CRC, then emit first
and last character of each byte's word, concatenated. -/
def encodeMinimal (data : List Nat) : List Nat :=
  ((appendCRC data).map minimalChars).flatten

/-- Single-space join, as strings.Join(parts, " ") does (stdlib collaborator
of encodeStandard). -/
def joinSpace : List (List Nat) → List Nat
  | [] => []
  | [w] => w
  | w :: ws => w ++ 32 :: joinSpace ws

/-- encodeStandard (source lines 163-170): append the CRC, emit every
byte's full word, joined by single spaces. -/
def encodeStandard (data : List Nat) : List Nat :=
  joinSpace ((appendCRC data).map wordForByte)

/-- Single-space split with Go's strings.Split(s, " ") semantics (stdlib
collaborator of decode): empty parts are kept, the empty input gives one
empty token. -/
def splitSpace : List Nat → List (List Nat)
  | [] => [[]]
  | c :: rest =>
    if c = 32 then [] :: splitSpace rest
    else
      match splitSpace rest with
      | t :: ts => (c :: t) :: ts
      | [] => [[c]]

/-- The minimal-variant 2-character chunking loop of decode (source lines
179-181): Go takes s[i:i+2] for i = 0, 2, ..., which panics with a slice
bounds error when exactly one character remains; the panic is none. -/
def chunk2 : List Nat → Option (List (List Nat))
  | [] => some []
  | [_] => none
  | a :: b :: rest => (chunk2 rest).map (fun ts => [a, b] :: ts)

/-- The two wire variants. decode in the source takes (wordLen, sep) and is
used with (2, "") for the minimal variant; the standard variant is
(4, " ") with the space separator, as the spec fixes it. -/
inductive Variant where
  | minimal
  | standard
deriving DecidableEq

/-- Token width of a variant. -/
def wordLenOf : Variant → Nat
  | .minimal => 2
  | .standard => 4

/-- Tokenization step of decode (source lines 174-182): splitting on the
separator for wordLen 4, 2-character chunking otherwise; none is the
chunking panic on odd input length. -/
def tokensOf : Variant → List Nat → Option (List (List Nat))
  | .standard, s => some (splitSpace s)
  | .minimal, s => chunk2 s

/-- The token-decoding loop of decode (source lines 184-191): decode each
token in order, the first error aborting the loop. -/
def decodeTokens : List (List Nat) → Nat → Except BWErr (List Nat)
  | [], _ => .ok []
  | t :: ts, wl =>
    match decodeWord t wl with
    | .error e => .error e
    | .ok b =>
      match decodeTokens ts wl with
      | .error e => .error e
      | .ok bs => .ok (b :: bs)

/-- equal (source lines 203-213): byte-for-byte comparison of two byte
slices, false on differing lengths. -/
def equal : List Nat → List Nat → Bool
  | [], [] => true
  | a :: as, b :: bs => a = b && equal as bs
  | _, _ => false

/-- Result of the bytewords decoder: a returned body, a returned Go error,
or a runtime panic (which returns nothing at all). -/
inductive BWResult where
  | ok (body : List Nat)
  | err (e : BWErr)
  | panicked
deriving DecidableEq, Repr

/-- decode (source lines 173-201): tokenize per variant, decode every
token, require at least 5 bytes, check the trailing 4 bytes against the
CRC-32 of the rest, and return the body with the checksum stripped. -/
def decode (v : Variant) (s : List Nat) : BWResult :=
  match tokensOf v s with
  | none => .panicked
  | some tokens =>
    match decodeTokens tokens (wordLenOf v) with
    | .error e => .err e
    | .ok buf =>
      if buf.length < 5 then .err .tooShort
      else
        let body := buf.take (buf.length - 4)
        let checksum := buf.drop (buf.length - 4)
        if !equal checksum (crc32Bytes body) then .err .crcMismatch
        else .ok body

set_option maxHeartbeats 4000000 in
set_option maxRecDepth 8000 in
/-- Per-byte table facts, checked over all 256 byte values: every word has
4 characters, all in a-z, both decode paths invert the encoding of that
byte, and the reverse lookup keyed on (last char, first char) returns the
byte. -/
theorem byteFacts : ∀ b, b < 256 →
    (wordForByte b).length = 4 ∧
    (∀ c ∈ wordForByte b, 97 ≤ c ∧ c ≤ 122) ∧
    decodeWord (minimalChars b) 2 = .ok b ∧
    decodeWord (wordForByte b) 4 = .ok b ∧
    lookupTable.getD (((wordForByte b).getD 3 0 - 97) * 26 +
      ((wordForByte b).getD 0 0 - 97)) (-1) = (b : Int) := by decide

theorem equal_iff (a b : List Nat) : equal a b = true ↔ a = b := by
  induction a generalizing b with
  | nil => cases b <;> simp [equal]
  | cons x xs ih =>
    cases b with
    | nil => simp [equal]
    | cons y ys => simp [equal, ih]

theorem crc32Bytes_length (d : List Nat) : (crc32Bytes d).length = 4 := rfl

theorem crc32Bytes_lt (d : List Nat) : ∀ c ∈ crc32Bytes d, c < 256 := by
  simp only [crc32Bytes, putUint32BE, List.mem_cons]
  intro c hc
  rcases hc with h | h | h | h | h <;> first | (subst h; omega) | cases h

theorem appendCRC_length (d : List Nat) : (appendCRC d).length = d.length + 4 := by
  simp [appendCRC, crc32Bytes_length]

theorem appendCRC_lt (d : List Nat) (hd : ∀ b ∈ d, b < 256) :
    ∀ b ∈ appendCRC d, b < 256 := by
  intro b hb
  rcases List.mem_append.mp hb with h | h
  · exact hd b h
  · exact crc32Bytes_lt d b h

theorem chunk2_pairs (D : List Nat) :
    chunk2 ((D.map minimalChars).flatten) = some (D.map minimalChars) := by
  induction D with
  | nil => rfl
  | cons b rest ih => simp [minimalChars, chunk2, ih]

theorem decodeTokens_minimal (D : List Nat) (hD : ∀ b ∈ D, b < 256) :
    decodeTokens (D.map minimalChars) 2 = .ok D := by
  induction D with
  | nil => rfl
  | cons b rest ih =>
    have hb := (byteFacts b (hD b (List.mem_cons_self b rest))).2.2.1
    have hrest := ih fun x hx => hD x (List.mem_cons_of_mem b hx)
    simp [decodeTokens, hb, hrest]

theorem equal_refl (a : List Nat) : equal a a = true := (equal_iff a a).mpr rfl

/-- Decoding the appended-CRC buffer back: the length / take / drop / crc
bookkeeping of decode's tail on buf = B ++ crc32Bytes B with B nonempty. -/
theorem decode_tail (B : List Nat) (hB : B ≠ []) :
    ¬((B ++ crc32Bytes B).length < 5) ∧
    (B ++ crc32Bytes B).take ((B ++ crc32Bytes B).length - 4) = B ∧
    (B ++ crc32Bytes B).drop ((B ++ crc32Bytes B).length - 4) = crc32Bytes B := by
  have hlen : (B ++ crc32Bytes B).length = B.length + 4 := by
    simp [crc32Bytes_length]
  have hBlen : 1 ≤ B.length := by
    cases B with
    | nil => exact absurd rfl hB
    | cons a l => simp
  refine ⟨by omega, ?_, ?_⟩
  · rw [hlen, Nat.add_sub_cancel, List.take_left]
  · rw [hlen, Nat.add_sub_cancel, List.drop_left]

/-- Round trip through the minimal variant, for nonempty byte input. -/
theorem decode_encodeMinimal (B : List Nat) (hB : ∀ b ∈ B, b < 256) (hne : B ≠ []) :
    decode .minimal (encodeMinimal B) = .ok B := by
  have htoks : tokensOf .minimal (encodeMinimal B) = some ((appendCRC B).map minimalChars) :=
    chunk2_pairs (appendCRC B)
  have hdec : decodeTokens ((appendCRC B).map minimalChars) 2 = .ok (appendCRC B) :=
    decodeTokens_minimal (appendCRC B) (appendCRC_lt B hB)
  have htail := decode_tail B hne
  simp only [decode, htoks, wordLenOf, hdec, appendCRC] at *
  rw [if_neg htail.1, htail.2.1, htail.2.2, equal_refl]
  rfl

theorem splitSpace_no_space (w : List Nat) (hw : 32 ∉ w) : splitSpace w = [w] := by
  induction w with
  | nil => rfl
  | cons a t ih =>
    have ha : a ≠ 32 := fun h => hw (h ▸ List.mem_cons_self a t)
    have ht : 32 ∉ t := fun h => hw (List.mem_cons_of_mem a h)
    simp [splitSpace, ha, ih ht]

theorem splitSpace_append (w t : List Nat) (hw : 32 ∉ w) :
    splitSpace (w ++ 32 :: t) = w :: splitSpace t := by
  induction w with
  | nil => simp [splitSpace]
  | cons a u ih =>
    have ha : a ≠ 32 := fun h => hw (h ▸ List.mem_cons_self a u)
    have hu : 32 ∉ u := fun h => hw (List.mem_cons_of_mem a h)
    simp only [List.cons_append, splitSpace, if_neg ha, List.append_eq, ih hu]

theorem splitSpace_joinSpace (ws : List (List Nat)) (hne : ws ≠ [])
    (hw : ∀ w ∈ ws, 32 ∉ w) : splitSpace (joinSpace ws) = ws := by
  induction ws with
  | nil => exact absurd rfl hne
  | cons w rest ih =>
    cases rest with
    | nil => exact splitSpace_no_space w (hw w (List.mem_cons_self w []))
    | cons w2 rest2 =>
      have hwmem : 32 ∉ w := hw w (List.mem_cons_self w (w2 :: rest2))
      have hrest : ∀ x ∈ w2 :: rest2, 32 ∉ x := fun x hx => hw x (List.mem_cons_of_mem w hx)
      calc splitSpace (joinSpace (w :: w2 :: rest2))
          = splitSpace (w ++ 32 :: joinSpace (w2 :: rest2)) := rfl
        _ = w :: splitSpace (joinSpace (w2 :: rest2)) := splitSpace_append _ _ hwmem
        _ = w :: (w2 :: rest2) := by rw [ih (by simp) hrest]

theorem word_no_space (b : Nat) (hb : b < 256) : 32 ∉ wordForByte b := by
  intro h
  have := ((byteFacts b hb).2.1) 32 h
  omega

theorem decodeTokens_standard (D : List Nat) (hD : ∀ b ∈ D, b < 256) :
    decodeTokens (D.map wordForByte) 4 = .ok D := by
  induction D with
  | nil => rfl
  | cons b rest ih =>
    have hb := (byteFacts b (hD b (List.mem_cons_self b rest))).2.2.2.1
    have hrest := ih fun x hx => hD x (List.mem_cons_of_mem b hx)
    simp [decodeTokens, hb, hrest]

/-- Round trip through the standard variant, for nonempty byte input. -/
theorem decode_encodeStandard (B : List Nat) (hB : ∀ b ∈ B, b < 256) (hne : B ≠ []) :
    decode .standard (encodeStandard B) = .ok B := by
  have hlt := appendCRC_lt B hB
  have hws : ∀ w ∈ (appendCRC B).map wordForByte, 32 ∉ w := by
    intro w hw
    rcases List.mem_map.mp hw with ⟨b, hb, rfl⟩
    exact word_no_space b (hlt b hb)
  have hwsne : (appendCRC B).map wordForByte ≠ [] := by
    intro h
    have h2 := congrArg List.length h
    simp [List.length_map, appendCRC_length] at h2
  have htoks : tokensOf .standard (encodeStandard B) = some ((appendCRC B).map wordForByte) := by
    simp only [tokensOf, encodeStandard]
    rw [splitSpace_joinSpace _ hwsne hws]
  have hdec : decodeTokens ((appendCRC B).map wordForByte) 4 = .ok (appendCRC B) :=
    decodeTokens_standard (appendCRC B) hlt
  have htail := decode_tail B hne
  simp only [decode, htoks, wordLenOf, hdec, appendCRC] at *
  rw [if_neg htail.1, htail.2.1, htail.2.2, equal_refl]
  rfl

/-- Characterization of a successful decode: the tokenizer produced tokens,
every token decoded, at least 5 bytes resulted, the body is the buffer
minus its trailing 4 bytes and those trailing bytes are the CRC-32 of the
body. -/
theorem decode_ok_iff (v : Variant) (s body : List Nat) :
    decode v s = .ok body ↔
    ∃ toks buf, tokensOf v s = some toks ∧
      decodeTokens toks (wordLenOf v) = .ok buf ∧
      5 ≤ buf.length ∧
      body = buf.take (buf.length - 4) ∧
      buf.drop (buf.length - 4) = crc32Bytes body := by
  constructor
  · intro h
    rcases htk : tokensOf v s with _ | toks
    · simp only [decode, htk] at h
      cases h
    rcases hdt : decodeTokens toks (wordLenOf v) with e | buf
    · simp only [decode, htk, hdt] at h
      cases h
    simp only [decode, htk, hdt] at h
    split_ifs at h with h1 h2
    cases h
    simp at h2
    exact ⟨toks, buf, rfl, hdt, by omega, rfl, (equal_iff _ _).mp h2⟩
  · rintro ⟨toks, buf, htk, hdt, hlen, hbody, hcrc⟩
    simp only [decode, htk, hdt]
    rw [if_neg (by omega)]
    subst hbody
    rw [hcrc, equal_refl]
    rfl

theorem exists_four (w : List Nat) (h : w.length = 4) :
    ∃ a b c d, w = [a, b, c, d] := by
  match w, h with
  | [a, b, c, d], _ => exact ⟨a, b, c, d, rfl⟩

theorem goToLower_id (c : Nat) (h1 : 97 ≤ c) (h2 : c ≤ 122) : goToLower c = c := by
  unfold goToLower
  split_ifs with ha hb
  · omega
  · omega
  · rfl

theorem set_append_left {α : Type} (w t : List α) (j : Nat) (c : α) (hj : j < w.length) :
    (w ++ t).set j c = w.set j c ++ t := by
  induction w generalizing j with
  | nil => cases hj
  | cons a u ih =>
    cases j with
    | zero => rfl
    | succ n =>
      simp only [List.cons_append, List.set_cons_succ]
      rw [ih n (by simpa using hj)]

theorem set_append_add {α : Type} (w t : List α) (n : Nat) (c : α) :
    (w ++ t).set (w.length + n) c = w ++ t.set n c := by
  induction w with
  | nil => simp
  | cons a u ih =>
    simp only [List.cons_append, List.length_cons]
    have h2 : u.length + 1 + n = (u.length + n) + 1 := by omega
    rw [h2, List.set_cons_succ, ih]

theorem getD_append_left {α : Type} (w t : List α) (j : Nat) (d : α) (hj : j < w.length) :
    (w ++ t).getD j d = w.getD j d := by
  induction w generalizing j with
  | nil => cases hj
  | cons a u ih =>
    cases j with
    | zero => rfl
    | succ n => simpa using ih n (by simpa using hj)

theorem getD_append_add {α : Type} (w t : List α) (n : Nat) (d : α) :
    (w ++ t).getD (w.length + n) d = t.getD n d := by
  induction w with
  | nil => simp
  | cons a u ih =>
    simp only [List.cons_append, List.length_cons]
    have h2 : u.length + 1 + n = (u.length + n) + 1 := by omega
    rw [h2]
    simpa using ih

theorem mem_of_mem_set {α : Type} (l : List α) (i : Nat) (c x : α)
    (hx : x ∈ l.set i c) : x ∈ l ∨ x = c := by
  induction l generalizing i with
  | nil => cases hx
  | cons a u ih =>
    cases i with
    | zero =>
      rcases List.mem_cons.mp hx with h | h
      · right; exact h
      · left; exact List.mem_cons_of_mem a h
    | succ n =>
      rcases List.mem_cons.mp hx with h | h
      · left; exact h ▸ List.mem_cons_self a u
      · rcases ih n h with h2 | h2
        · left; exact List.mem_cons_of_mem a h2
        · right; exact h2

/-- Decoding a 4-character token whose first and last characters are those
of the word for b but whose interior mismatches the word yields the
corrupt-word error. -/
theorem decodeWord4_corrupt (b c1 c2 : Nat) (hb : b < 256)
    (hmid : c1 ≠ (wordForByte b).getD 1 0 ∨ c2 ≠ (wordForByte b).getD 2 0) :
    decodeWord [(wordForByte b).getD 0 0, c1, c2, (wordForByte b).getD 3 0] 4 =
      .error .corruptWord := by
  obtain ⟨w0, w1, w2, w3, hw⟩ := exists_four (wordForByte b) (byteFacts b hb).1
  have hchars := (byteFacts b hb).2.1
  have hlook := (byteFacts b hb).2.2.2.2
  rw [hw] at hchars hlook hmid ⊢
  simp only [List.getD_cons_succ, List.getD_cons_zero] at hlook hmid ⊢
  have h0 : 97 ≤ w0 ∧ w0 ≤ 122 := hchars w0 (by simp)
  have h3 : 97 ≤ w3 ∧ w3 ≤ 122 := hchars w3 (by simp)
  have hg0 : goToLower w0 = w0 := goToLower_id _ h0.1 h0.2
  have hg3 : goToLower w3 = w3 := goToLower_id _ h3.1 h3.2
  unfold decodeWord
  simp only [List.length_cons, List.length_nil, List.getD_cons_succ, List.getD_cons_zero,
    hg0, hg3, eq_self_iff_true, if_true]
  rw [if_neg (by omega)]
  rw [if_neg (by omega)]
  have hoff : (((w3 : Int) - 97) * 26 + ((w0 : Int) - 97)).toNat =
      (w3 - 97) * 26 + (w0 - 97) := by omega
  rw [hoff, hlook]
  rw [if_neg (show ¬((b : Int) = -1) by omega)]
  rw [if_pos ⟨trivial, by rw [show ((b : Int)).toNat = b by omega, hw]; simpa using hmid⟩]
theorem joinSpace_cons (w : List Nat) (u : List (List Nat)) (hu : u ≠ []) :
    joinSpace (w :: u) = w ++ 32 :: joinSpace u := by
  cases u with
  | nil => exact absurd rfl hu
  | cons a l => rfl

theorem getD_mem_of_lt {α : Type} (l : List α) (n : Nat) (d : α) (h : n < l.length) :
    l.getD n d ∈ l := by
  induction l generalizing n with
  | nil => cases h
  | cons a u ih =>
    cases n with
    | zero => exact List.mem_cons_self a u
    | succ m => exact List.mem_cons_of_mem a (ih m (by simpa using h))

theorem getD_map_word (D : List Nat) (k : Nat) (hk : k < D.length) :
    (D.map wordForByte).getD k [] = wordForByte (D.getD k 0) := by
  induction D generalizing k with
  | nil => cases hk
  | cons b rest ih =>
    cases k with
    | zero => rfl
    | succ m => simpa using ih m (by simpa using hk)

/-- Writing one character inside word k of a space-joined word list, at flat
index 5k+j with j inside the word, rewrites just that word; and reading that
flat index reads that character of that word. -/
theorem joinSpace_set (ws : List (List Nat)) (k j c : Nat)
    (hlen : ∀ w ∈ ws, w.length = 4) (hk : k < ws.length) (hj : j < 4) :
    (joinSpace ws).set (5 * k + j) c = joinSpace (ws.set k ((ws.getD k []).set j c)) ∧
    (joinSpace ws).getD (5 * k + j) 0 = (ws.getD k []).getD j 0 := by
  induction ws generalizing k with
  | nil => cases hk
  | cons w rest ih =>
    have hwlen : w.length = 4 := hlen w (List.mem_cons_self w rest)
    cases k with
    | zero =>
      simp only [Nat.mul_zero, Nat.zero_add, List.getD_cons_zero, List.set_cons_zero]
      cases rest with
      | nil => exact ⟨rfl, rfl⟩
      | cons r rs =>
        constructor
        · rw [joinSpace_cons w (r :: rs) (by simp),
            set_append_left w _ j c (by omega),
            joinSpace_cons _ (r :: rs) (by simp)]
        · rw [joinSpace_cons w (r :: rs) (by simp),
            getD_append_left w _ j 0 (by omega)]
    | succ m =>
      cases rest with
      | nil => simp at hk
      | cons r rs =>
        have hm : m < (r :: rs).length := by simpa using hk
        have hrest : ∀ x ∈ r :: rs, x.length = 4 :=
          fun x hx => hlen x (List.mem_cons_of_mem w hx)
        have hidx : 5 * (m + 1) + j = w.length + (5 * m + j + 1) := by omega
        have hsetne : (r :: rs).set m (((r :: rs).getD m []).set j c) ≠ [] := by
          intro h
          have h2 := congrArg List.length h
          simp at h2
        obtain ⟨ihset, ihgetD⟩ := ih m hrest hm
        constructor
        · rw [joinSpace_cons w (r :: rs) (by simp), hidx, set_append_add,
            List.set_cons_succ, ihset, List.getD_cons_succ, List.set_cons_succ,
            joinSpace_cons w _ hsetne]
        · rw [joinSpace_cons w (r :: rs) (by simp), hidx, getD_append_add,
            List.getD_cons_succ, List.getD_cons_succ, ihgetD]

theorem decodeTokens_append_err (pre : List (List Nat)) (t : List Nat)
    (post : List (List Nat)) (wl : Nat) (buf : List Nat) (e : BWErr)
    (hpre : decodeTokens pre wl = .ok buf) (ht : decodeWord t wl = .error e) :
    decodeTokens (pre ++ t :: post) wl = .error e := by
  induction pre generalizing buf with
  | nil => simp [decodeTokens, ht]
  | cons p ps ih =>
    rcases h1 : decodeWord p wl with e1 | b1
    · simp [decodeTokens, h1] at hpre
    rcases h2 : decodeTokens ps wl with e2 | bs
    · simp [decodeTokens, h1, h2] at hpre
    simp [decodeTokens, h1, ih bs h2]

theorem take_map_word (D : List Nat) (k : Nat) :
    (D.map wordForByte).take k = (D.take k).map wordForByte := by
  induction D generalizing k with
  | nil => simp
  | cons b rest ih =>
    cases k with
    | zero => rfl
    | succ m =>
      simp only [List.map_cons, List.take_succ_cons]
      rw [ih]

/-- Corrupting one interior character (index 1 or 2 inside its word) of a
standard-variant encoding with a non-space character different from the one
already there makes decode fail with the corrupt-word error. -/
theorem standard_corrupt (B : List Nat) (k j c : Nat) (hB : ∀ b ∈ B, b < 256)
    (hk : k < B.length + 4) (hj : j = 1 ∨ j = 2) (hc32 : c ≠ 32)
    (hcdiff : c ≠ (encodeStandard B).getD (5 * k + j) 0) :
    decode .standard ((encodeStandard B).set (5 * k + j) c) = .err .corruptWord := by
  have hD := appendCRC_lt B hB
  have hDlen : (appendCRC B).length = B.length + 4 := appendCRC_length B
  have hk2 : k < (appendCRC B).length := by omega
  have hkws : k < ((appendCRC B).map wordForByte).length := by
    simpa [List.length_map] using hk2
  have hws_len : ∀ w ∈ (appendCRC B).map wordForByte, w.length = 4 := by
    intro w hw
    rcases List.mem_map.mp hw with ⟨b, hb, rfl⟩
    exact (byteFacts b (hD b hb)).1
  have hj4 : j < 4 := by omega
  obtain ⟨hset, hgetD⟩ :=
    joinSpace_set ((appendCRC B).map wordForByte) k j c hws_len hkws hj4
  have henc : encodeStandard B = joinSpace ((appendCRC B).map wordForByte) := rfl
  have hb0 : (appendCRC B).getD k 0 < 256 :=
    hD _ (getD_mem_of_lt (appendCRC B) k 0 hk2)
  have hwsk : ((appendCRC B).map wordForByte).getD k [] =
      wordForByte ((appendCRC B).getD k 0) := getD_map_word (appendCRC B) k hk2
  have hcdiff2 : c ≠ (wordForByte ((appendCRC B).getD k 0)).getD j 0 := by
    rw [henc, hgetD, hwsk] at hcdiff
    exact hcdiff
  obtain ⟨w0, w1, w2, w3, hw⟩ :=
    exists_four (wordForByte ((appendCRC B).getD k 0)) (byteFacts _ hb0).1
  have hdw : decodeWord ((wordForByte ((appendCRC B).getD k 0)).set j c) 4 =
      .error .corruptWord := by
    rcases hj with rfl | rfl
    · have hmid : c ≠ (wordForByte ((appendCRC B).getD k 0)).getD 1 0 ∨
          w2 ≠ (wordForByte ((appendCRC B).getD k 0)).getD 2 0 := Or.inl hcdiff2
      have h2 := decodeWord4_corrupt ((appendCRC B).getD k 0) c w2 hb0 hmid
      rw [hw] at h2 ⊢
      simpa using h2
    · have hmid : w1 ≠ (wordForByte ((appendCRC B).getD k 0)).getD 1 0 ∨
          c ≠ (wordForByte ((appendCRC B).getD k 0)).getD 2 0 := Or.inr hcdiff2
      have h2 := decodeWord4_corrupt ((appendCRC B).getD k 0) w1 c hb0 hmid
      rw [hw] at h2 ⊢
      simpa using h2
  have hwd32 : 32 ∉ (wordForByte ((appendCRC B).getD k 0)).set j c := by
    intro hx
    rcases mem_of_mem_set _ _ _ _ hx with h | h
    · exact word_no_space _ hb0 h
    · exact hc32 h.symm
  have hws2 : ∀ w ∈ ((appendCRC B).map wordForByte).set k
      ((wordForByte ((appendCRC B).getD k 0)).set j c), 32 ∉ w := by
    intro w hwmem
    rcases mem_of_mem_set _ _ _ _ hwmem with h | h
    · rcases List.mem_map.mp h with ⟨b, hb, rfl⟩
      exact word_no_space b (hD b hb)
    · rw [h]
      exact hwd32
  have hne2 : ((appendCRC B).map wordForByte).set k
      ((wordForByte ((appendCRC B).getD k 0)).set j c) ≠ [] := by
    intro h
    have h3 : k < (((appendCRC B).map wordForByte).set k
        ((wordForByte ((appendCRC B).getD k 0)).set j c)).length := by
      simpa [List.length_set] using hkws
    rw [h] at h3
    simp at h3
  have hpre : decodeTokens (((appendCRC B).map wordForByte).take k) 4 =
      .ok ((appendCRC B).take k) := by
    rw [take_map_word]
    exact decodeTokens_standard _ fun x hx => hD x (List.take_subset k (appendCRC B) hx)
  have hsplit : ((appendCRC B).map wordForByte).set k
      ((wordForByte ((appendCRC B).getD k 0)).set j c) =
      ((appendCRC B).map wordForByte).take k ++
        ((wordForByte ((appendCRC B).getD k 0)).set j c) ::
        ((appendCRC B).map wordForByte).drop (k + 1) :=
    List.set_eq_take_cons_drop _ hkws
  have herr : decodeTokens (((appendCRC B).map wordForByte).set k
      ((wordForByte ((appendCRC B).getD k 0)).set j c)) 4 = .error .corruptWord := by
    rw [hsplit]
    exact decodeTokens_append_err _ _ _ _ _ _ hpre hdw
  have hfinal : (encodeStandard B).set (5 * k + j) c =
      joinSpace (((appendCRC B).map wordForByte).set k
        ((wordForByte ((appendCRC B).getD k 0)).set j c)) := by
    rw [henc, hset, hwsk]
  have htoks2 : tokensOf .standard (joinSpace (((appendCRC B).map wordForByte).set k
      ((wordForByte ((appendCRC B).getD k 0)).set j c))) =
      some (((appendCRC B).map wordForByte).set k
        ((wordForByte ((appendCRC B).getD k 0)).set j c)) := by
    simp only [tokensOf]
    rw [splitSpace_joinSpace _ hne2 hws2]
  rw [hfinal]
  simp only [decode, htoks2, wordLenOf, herr]

/-- ASCII lowercasing of one byte, the "all letters lowercased" operation
the round-trip claims quantify over: A-Z map down by 32, all else is kept. -/
def lowerAscii (c : Nat) : Nat := if 65 ≤ c ∧ c ≤ 90 then c + 32 else c

theorem goToLower_lowerAscii (c : Nat) : goToLower (lowerAscii c) = goToLower c := by
  unfold goToLower lowerAscii
  split_ifs <;> omega

theorem chunk2_map_lower : ∀ s : List Nat,
    chunk2 (s.map lowerAscii) =
      (chunk2 s).map (fun ts => ts.map (fun t => t.map lowerAscii))
  | [] => rfl
  | [a] => rfl
  | a :: b :: rest => by
    simp [chunk2, chunk2_map_lower rest]
    rcases chunk2 rest with _ | ts <;> simp

theorem exists_two (t : List Nat) (h : t.length = 2) : ∃ a b, t = [a, b] := by
  match t, h with
  | [a, b], _ => exact ⟨a, b, rfl⟩

theorem decodeWord2_lower (t : List Nat) :
    decodeWord (t.map lowerAscii) 2 = decodeWord t 2 := by
  by_cases h : t.length = 2
  · obtain ⟨a, b, rfl⟩ := exists_two t h
    simp [decodeWord, goToLower_lowerAscii]
  · unfold decodeWord
    rw [List.length_map]
    rw [if_pos h, if_pos h]

theorem decodeTokens2_lower : ∀ toks : List (List Nat),
    decodeTokens (toks.map (fun t => t.map lowerAscii)) 2 = decodeTokens toks 2
  | [] => rfl
  | t :: ts => by
    simp only [List.map_cons, decodeTokens, decodeWord2_lower t, decodeTokens2_lower ts]

/-- Minimal-variant decoding is unchanged by lowercasing the whole input. -/
theorem decode_minimal_lower (s : List Nat) :
    decode .minimal (s.map lowerAscii) = decode .minimal s := by
  rcases h : chunk2 s with _ | toks
  · simp [decode, tokensOf, chunk2_map_lower, h]
  · simp [decode, tokensOf, wordLenOf, chunk2_map_lower, h, decodeTokens2_lower]

/-- The out-of-alphabet error of a minimal-variant token occurs exactly when
the token has the right width but one of its two characters normalizes
outside a-z. -/
theorem decodeWord2_outOfAlphabet (t : List Nat) :
    decodeWord t 2 = .error .outOfAlphabet ↔
    t.length = 2 ∧ ¬(97 ≤ goToLower (t.getD 0 0) ∧ goToLower (t.getD 0 0) ≤ 122 ∧
      97 ≤ goToLower (t.getD 1 0) ∧ goToLower (t.getD 1 0) ≤ 122) := by
  by_cases h : t.length = 2
  · obtain ⟨a, b, rfl⟩ := exists_two t h
    simp only [decodeWord, List.length_cons, List.length_nil, List.getD_cons_zero,
      List.getD_cons_succ]
    rw [if_neg (by omega)]
    rw [if_neg (show ¬((2 : Nat) = 4) by omega)]
    constructor
    · intro hres
      by_cases h1 : ((goToLower a : Int) - 97 < 0 ∨ 26 ≤ (goToLower a : Int) - 97 ∨
          (goToLower b : Int) - 97 < 0 ∨ 26 ≤ (goToLower b : Int) - 97)
      · exact ⟨by simp, by omega⟩
      · rw [if_neg h1] at hres
        split_ifs at hres <;> cases hres
    · rintro ⟨-, hcond⟩
      rw [if_pos (by omega)]
  · constructor
    · intro hres
      unfold decodeWord at hres
      rw [if_pos h] at hres
      cases hres
    · rintro ⟨h2, -⟩
      exact absurd h2 h

theorem flatten_pairs_length (D : List Nat) :
    ((D.map minimalChars).flatten).length = 2 * D.length := by
  induction D with
  | nil => rfl
  | cons b rest ih => simp [minimalChars, ih]; omega

theorem encodeMinimal_length (B : List Nat) :
    (encodeMinimal B).length = 2 * (B.length + 4) := by
  unfold encodeMinimal
  rw [flatten_pairs_length, appendCRC_length]

theorem joinSpace_length : ∀ ws : List (List Nat), ws ≠ [] →
    (∀ w ∈ ws, w.length = 4) → (joinSpace ws).length = 5 * ws.length - 1
  | [], h, _ => absurd rfl h
  | [w], _, hw => by simp [joinSpace, hw w (List.mem_cons_self w [])]
  | w :: r :: rs, _, hw => by
    have hr := joinSpace_length (r :: rs) (by simp)
      (fun x hx => hw x (List.mem_cons_of_mem w hx))
    have hwl : w.length = 4 := hw w (List.mem_cons_self w (r :: rs))
    rw [joinSpace_cons w (r :: rs) (by simp)]
    simp only [List.length_append, List.length_cons, hr, hwl]
    omega

theorem encodeStandard_length (B : List Nat) (hB : ∀ b ∈ B, b < 256) :
    (encodeStandard B).length = 5 * (B.length + 4) - 1 := by
  unfold encodeStandard
  have hlt := appendCRC_lt B hB
  have hws : ∀ w ∈ (appendCRC B).map wordForByte, w.length = 4 := by
    intro w hw
    rcases List.mem_map.mp hw with ⟨b, hb, rfl⟩
    exact (byteFacts b (hlt b hb)).1
  have hne : (appendCRC B).map wordForByte ≠ [] := by
    intro h
    have h2 := congrArg List.length h
    simp [appendCRC_length] at h2
  rw [joinSpace_length _ hne hws]
  simp [appendCRC_length]

/-- Untyped value tree reaching the record-mapping stage of Decode: the
inner CBOR value after the json round-trip of source lines 71-76. JSON
numbers (Go float64 there) are modelled by their integral values, since the
mapper only passes them through int() and the claims checked here do not
depend on non-integral values. -/
inductive JVal where
  | num (x : Int)
  | str (s : String)
  | bool (b : Bool)
  | arr (l : List JVal)
  | null

/-- WalletInfo record (source lines 215-223). -/
structure WalletInfo where
  DerivationPath : String
  ChainCode : String
  Name : String
  Internal1 : Bool
  Internal2 : Bool
  SomeBytes : String
  XPub : String
deriving DecidableEq

/-- Account record (source lines 225-231). -/
structure Account where
  ID : Int
  Index : Int
  «Type» : String
  Block : Int
  Wallet : WalletInfo
deriving DecidableEq

/-- Root record (source lines 234-237). -/
structure Root where
  Version : Int
  Accounts : List Account
deriving DecidableEq

/-- Go type assertion x.(float64) on a json value: none is the panic. -/
def JVal.asNum : JVal → Option Int
  | .num x => some x
  | _ => none

/-- Go type assertion x.(string): none is the panic. -/
def JVal.asStr : JVal → Option String
  | .str s => some s
  | _ => none

/-- Go type assertion x.(bool): none is the panic. -/
def JVal.asBool : JVal → Option Bool
  | .bool b => some b
  | _ => none

/-- Go type assertion x.([]any): none is the panic. -/
def JVal.asArr : JVal → Option (List JVal)
  | .arr l => some l
  | _ => none

/-- Go slice indexing l[i]: none is the index-out-of-range panic. -/
def idx {α : Type} (l : List α) (i : Nat) : Option α := l[i]?

/-- The wallet-info sub-sequence mapping (source lines 90-98): positional
Go index plus type assertion for each field, none on any panic. -/
def mapWallet (w : List JVal) : Option WalletInfo := do
  let dp ← (← idx w 0).asStr
  let cc ← (← idx w 1).asStr
  let nm ← (← idx w 2).asStr
  let i1 ← (← idx w 3).asBool
  let i2 ← (← idx w 4).asBool
  let sb ← (← idx w 5).asStr
  let xp ← (← idx w 6).asStr
  pure ⟨dp, cc, nm, i1, i2, sb, xp⟩

/-- One account entry (source lines 82-99): the entry must be an array, Go
evaluates arr[4].([]any) first (line 84), then the positional fields. -/
def mapAccount (a : JVal) : Option Account := do
  let l ← a.asArr
  let wv ← idx l 4
  let w ← wv.asArr
  let i0 ← (← idx l 0).asNum
  let i1 ← (← idx l 1).asNum
  let ty ← (← idx l 2).asStr
  let bl ← (← idx l 3).asNum
  let wi ← mapWallet w
  pure ⟨i0, i1, ty, bl, wi⟩

/-- The account loop (source lines 81-101), in source order. -/
def mapAccounts : List JVal → Option (List Account)
  | [] => some []
  | a :: rest => do
    let acc ← mapAccount a
    let accs ← mapAccounts rest
    pure (acc :: accs)

/-- The record-mapping stage of Decode (source lines 71-106): the json
round-trip into []any (panic if the tree is not an array), version from
raw[0], the account list from raw[1], then the account loop; none models
every runtime panic (failed type assertion or index out of range). -/
def mapRoot (v : JVal) : Option Root := do
  let raw ← v.asArr
  let ver ← (← idx raw 0).asNum
  let entries ← (← idx raw 1).asArr
  let accs ← mapAccounts entries
  pure ⟨ver, accs⟩

/-- The typed error kinds named by the spec (its section 7). The source
never returns one of these from Decode: its signature has no error channel. -/
inductive SpecError where
  | malformedToken
  | unknownWord
  | corruptWord
  | tooShort
  | checksumMismatch
  | containerDecodeError
  | schemaMismatch
deriving DecidableEq

/-- How one call of the full pipeline can end: a returned Root, a typed
error returned to the caller (never produced by this code - the
constructor exists to state the spec claims), a log.Fatal process exit
with the logged message, or a runtime panic. -/
inductive Outcome (α : Type) where
  | ok (a : α)
  | err (e : SpecError)
  | fatal (msg : String)
  | panicked
deriving DecidableEq

/-- True exactly when the outcome is a returned value. -/
def Outcome.isOk {α : Type} : Outcome α → Bool
  | .ok _ => true
  | _ => false

/-- True exactly when the outcome is a typed error returned to the caller. -/
def Outcome.isTypedErr {α : Type} : Outcome α → Bool
  | .err _ => true
  | _ => false

/-- The external collaborators of Decode, specified only by contract: the
outer CBOR byte-string decode, gzip inflate (its two failure points of
source lines 55-63 collapsed into one fallible call), and the inner CBOR
decode composed with the json round-trip, yielding a value tree. -/
structure Collaborators where
  cborOuter : List Nat → Except String (List Nat)
  gunzip : List Nat → Except String (List Nat)
  cborInner : List Nat → Except String JVal

/-- The record-mapping stage viewed as an outcome (source lines 71-106): a
Root or a panic. A mapping failure is a runtime panic, not a typed error. -/
def mapRecords (v : JVal) : Outcome Root :=
  match mapRoot v with
  | none => .panicked
  | some r => .ok r

/-- Step 4 of Decode (source lines 65-69): inner CBOR decode (with the json
round-trip), then the record mapping; log.Fatal on a decode error. -/
def decodeInner (env : Collaborators) (unzipped : List Nat) : Outcome Root :=
  match env.cborInner unzipped with
  | .error _ => .fatal "Inner CBOR decode failed"
  | .ok inner => mapRecords inner

/-- Step 3 of Decode (source lines 54-63): gunzip the outer bytes;
log.Fatal on a reader or read error. -/
def decodeGunzip (env : Collaborators) (outer : List Nat) : Outcome Root :=
  match env.gunzip outer with
  | .error _ => .fatal "gzip failed"
  | .ok unzipped => decodeInner env unzipped

/-- Step 2 of Decode (source lines 48-52): outer CBOR byte-string decode;
log.Fatal on error. -/
def decodeOuter (env : Collaborators) (decoded : List Nat) : Outcome Root :=
  match env.cborOuter decoded with
  | .error _ => .fatal "CBOR outer decode failed"
  | .ok outer => decodeGunzip env outer

/-- Decode (source lines 41-107): bytewords-decode the input with the
minimal variant - log.Fatal on error, and the minimal chunking panic
propagates - then steps 2-4 in source order. No error value is ever
returned: the signature has no error channel. -/
def Decode (env : Collaborators) (input : List Nat) : Outcome Root :=
  match decode .minimal input with
  | .panicked => .panicked
  | .err _ => .fatal "Bytewords decode failed"
  | .ok decoded => decodeOuter env decoded

/-- A successful Decode means every stage succeeded, on the very values the
previous stage produced. -/
theorem Decode_ok_stages (env : Collaborators) (input : List Nat) (r : Root)
    (h : Decode env input = .ok r) :
    ∃ decoded outer unzipped inner,
      decode .minimal input = .ok decoded ∧
      env.cborOuter decoded = .ok outer ∧
      env.gunzip outer = .ok unzipped ∧
      env.cborInner unzipped = .ok inner ∧
      mapRoot inner = some r := by
  unfold Decode at h
  rcases h1 : decode .minimal input with decoded | e | _
  rotate_left
  · simp [h1] at h
  · simp [h1] at h
  rw [h1] at h
  simp only at h
  unfold decodeOuter at h
  rcases h2 : env.cborOuter decoded with e | outer
  · simp [h2] at h
  rw [h2] at h
  simp only at h
  unfold decodeGunzip at h
  rcases h3 : env.gunzip outer with e | unzipped
  · simp [h3] at h
  rw [h3] at h
  simp only at h
  unfold decodeInner at h
  rcases h4 : env.cborInner unzipped with e | inner
  · simp [h4] at h
  rw [h4] at h
  simp only at h
  unfold mapRecords at h
  rcases h5 : mapRoot inner with _ | r2
  · simp [h5] at h
  rw [h5] at h
  simp only [Outcome.ok.injEq] at h
  subst h
  exact ⟨decoded, outer, unzipped, inner, rfl, h2, h3, h4, h5⟩

/-- The record mapper never returns a typed error value. -/
theorem mapRecords_isTypedErr (v : JVal) : (mapRecords v).isTypedErr = false := by
  unfold mapRecords
  rcases mapRoot v with _ | r <;> rfl

theorem decodeInner_isTypedErr (env : Collaborators) (u : List Nat) :
    (decodeInner env u).isTypedErr = false := by
  unfold decodeInner
  rcases env.cborInner u with e | inner
  · rfl
  · exact mapRecords_isTypedErr inner

theorem decodeGunzip_isTypedErr (env : Collaborators) (o : List Nat) :
    (decodeGunzip env o).isTypedErr = false := by
  unfold decodeGunzip
  rcases env.gunzip o with e | unzipped
  · rfl
  · exact decodeInner_isTypedErr env unzipped

theorem decodeOuter_isTypedErr (env : Collaborators) (d : List Nat) :
    (decodeOuter env d).isTypedErr = false := by
  unfold decodeOuter
  rcases env.cborOuter d with e | outer
  · rfl
  · exact decodeGunzip_isTypedErr env outer

/-- Decode never returns a typed error value: there is no error channel. -/
theorem Decode_isTypedErr (env : Collaborators) (input : List Nat) :
    (Decode env input).isTypedErr = false := by
  unfold Decode
  rcases decode .minimal input with decoded | e | _
  · exact decodeOuter_isTypedErr env decoded
  · rfl
  · rfl

theorem mapAccount_short (l : List JVal) (hlen : l.length = 4) :
    mapAccount (.arr l) = none := by
  have h4 : l[4]? = none := List.getElem?_eq_none (by omega)
  simp [mapAccount, JVal.asArr, idx, h4]

theorem mapAccounts_none_of_mem (entries : List JVal) (e : JVal)
    (hmem : e ∈ entries) (he : mapAccount e = none) :
    mapAccounts entries = none := by
  induction entries with
  | nil => cases hmem
  | cons a rest ih =>
    rcases List.mem_cons.mp hmem with h | h
    · subst h
      simp [mapAccounts, he]
    · rcases ha : mapAccount a with _ | acc
      · simp [mapAccounts, ha]
      · simp [mapAccounts, ha, ih h]

/-- A value tree whose account list contains an entry that is an array of
exactly 4 positional elements (one too few). -/
def hasShortAccountEntry (t : JVal) : Prop :=
  ∃ raw entries l, t = .arr raw ∧ raw[1]? = some (.arr entries) ∧
    JVal.arr l ∈ entries ∧ l.length = 4

theorem mapRoot_short (t : JVal) (h : hasShortAccountEntry t) : mapRoot t = none := by
  obtain ⟨raw, entries, l, rfl, h1, hmem, hlen⟩ := h
  have hacc : mapAccounts entries = none :=
    mapAccounts_none_of_mem entries (.arr l) hmem (mapAccount_short l hlen)
  rcases h0 : raw[0]? with _ | v0
  · simp [mapRoot, JVal.asArr, idx, h0]
  rcases hv0 : v0.asNum with _ | n
  · simp [mapRoot, JVal.asArr, idx, h0, hv0]
  simp [mapRoot, JVal.asArr, idx, h0, hv0, h1, hacc]

/-- A well-formed wallet-info sub-sequence, for concrete runs. -/
def goodWallet : JVal :=
  .arr [.str "m/0", .str "cc==", .str "name", .bool true, .bool false,
    .str "bytes", .str "xpub"]

/-- A well-formed value tree with one account, for concrete runs. -/
def goodTree : JVal :=
  .arr [.num 1, .arr [.arr [.num 1, .num 0, .str "abc", .num 0, goodWallet]]]

/-- Collaborators that always succeed, ending in goodTree. -/
def envOk : Collaborators :=
  ⟨fun _ => .ok [1], fun _ => .ok [2], fun _ => .ok goodTree⟩

/-- Collaborators that always fail. -/
def envErr : Collaborators :=
  ⟨fun _ => .error "e", fun _ => .error "e", fun _ => .error "e"⟩

/-- The Root goodTree maps to. -/
def root1 : Root :=
  ⟨1, [⟨1, 0, "abc", 0, ⟨"m/0", "cc==", "name", true, false, "bytes", "xpub"⟩⟩]⟩

/-- A value tree whose single account entry has only 4 positional elements. -/
def shortTree : JVal :=
  .arr [.num 1, .arr [.arr [.num 1, .num 0, .str "abc", .num 0]]]

/-- A value tree with one well-formed account entry followed by one account
entry of only 4 positional elements. -/
def shortTree2 : JVal :=
  .arr [.num 2, .arr [.arr [.num 1, .num 0, .str "t", .num 0, goodWallet],
    .arr [.num 1, .num 2, .str "u", .num 3]]]

/-- C1 (amended): for every nonempty byte sequence B, decoding the
minimal-variant encoding of B with the minimal variant returns B, and
decoding the standard-variant encoding (split on the space separator) with
the standard variant returns B. For empty B both decodes fail (see the
counterexample): only the 4 checksum bytes remain and decode requires at
least 5. -/
theorem C1_round_trip (B : List Nat) (hB : ∀ b ∈ B, b < 256) (hne : B ≠ []) :
    decode .minimal (encodeMinimal B) = .ok B ∧
    decode .standard (encodeStandard B) = .ok B :=
  ⟨decode_encodeMinimal B hB hne, decode_encodeStandard B hB hne⟩

theorem C1_round_trip_witness :
    decode .minimal (encodeMinimal [0, 255]) = .ok [0, 255] ∧
    decode .standard (encodeStandard [0, 255]) = .ok [0, 255] :=
  C1_round_trip [0, 255] (by decide) (by decide)

/-- C1 counterexample: the round trip fails on the empty byte sequence, in
both variants, with the too-short error. -/
theorem C1_counterexample :
    decode .minimal (encodeMinimal []) = .err .tooShort ∧
    decode .standard (encodeStandard []) = .err .tooShort := by decide

/-- C2 (amended): a failure at any stage aborts the entire decode with no
partial result - a successful Decode requires every stage to have
succeeded on the previous stage's output - but the abort is a log.Fatal
process exit or a runtime panic, never a typed error returned to the
caller: Decode returns no error value for any collaborators and input. -/
theorem C2_failure_aborts :
    (∀ (env : Collaborators) (input : List Nat) (r : Root),
      Decode env input = .ok r →
      ∃ decoded outer unzipped inner,
        decode .minimal input = .ok decoded ∧
        env.cborOuter decoded = .ok outer ∧
        env.gunzip outer = .ok unzipped ∧
        env.cborInner unzipped = .ok inner ∧
        mapRoot inner = some r) ∧
    (∀ (env : Collaborators) (input : List Nat),
      (Decode env input).isTypedErr = false) :=
  ⟨Decode_ok_stages, Decode_isTypedErr⟩

theorem C2_failure_aborts_witness :
    ∃ decoded outer unzipped inner,
      decode .minimal (encodeMinimal [7]) = .ok decoded ∧
      envOk.cborOuter decoded = .ok outer ∧
      envOk.gunzip outer = .ok unzipped ∧
      envOk.cborInner unzipped = .ok inner ∧
      mapRoot inner = some root1 :=
  C2_failure_aborts.1 envOk (encodeMinimal [7]) root1 (by decide)

/-- C2 counterexample: on empty input the bytewords stage fails and Decode
ends in a log.Fatal process exit - no Root and no typed error reaches the
caller, contradicting "surfaces a single typed error to the caller". -/
theorem C2_counterexample :
    Decode envErr [] = .fatal "Bytewords decode failed" ∧
    (Decode envErr []).isOk = false ∧
    (Decode envErr []).isTypedErr = false := by decide

/-- C3: the byte-to-word table is injective on all 256 byte values, and
reverse lookup keyed on (last char, first char) of word i returns i. -/
theorem C3_bijection :
    (∀ i j, i < 256 → j < 256 → wordForByte i = wordForByte j → i = j) ∧
    (∀ i, i < 256 → lookupTable.getD (((wordForByte i).getD 3 0 - 97) * 26 +
      ((wordForByte i).getD 0 0 - 97)) (-1) = (i : Int)) := by
  constructor
  · intro i j hi hj heq
    have h1 := (byteFacts i hi).2.2.2.2
    have h2 := (byteFacts j hj).2.2.2.2
    rw [heq] at h1
    rw [h1] at h2
    exact_mod_cast h2
  · intro i hi
    exact (byteFacts i hi).2.2.2.2

theorem C3_bijection_witness :
    (5 : Nat) = 5 ∧
    lookupTable.getD (((wordForByte 7).getD 3 0 - 97) * 26 +
      ((wordForByte 7).getD 0 0 - 97)) (-1) = (7 : Int) :=
  ⟨C3_bijection.1 5 5 (by decide) (by decide) rfl, C3_bijection.2 7 (by decide)⟩

/-- C4: a bytewords decode succeeds exactly when tokenization succeeded,
every token decoded, at least 5 bytes resulted, the returned body is the
buffer with its trailing 4 bytes stripped, and those trailing 4 bytes equal
the CRC-32 of the body; so decode fails whenever fewer than 5 bytes result
or the trailing 4 bytes mismatch the checksum. -/
theorem C4_decode_characterization (v : Variant) (s body : List Nat) :
    decode v s = .ok body ↔
    ∃ toks buf, tokensOf v s = some toks ∧
      decodeTokens toks (wordLenOf v) = .ok buf ∧
      5 ≤ buf.length ∧
      body = buf.take (buf.length - 4) ∧
      buf.drop (buf.length - 4) = crc32Bytes body :=
  decode_ok_iff v s body

/-- C5: a minimal-variant input of odd length makes decode panic (Go slice
out of range in the 2-character chunking), rather than returning the
MalformedToken or TooShort error the spec prescribes; shown on a 1- and a
3-character input. -/
theorem C5_odd_minimal_panics :
    decode .minimal [97] = .panicked ∧
    decode .minimal [104, 105, 106] = .panicked := by decide

/-- C6 (amended): a value tree whose account entry has only 4 positional
elements makes the record mapping panic at runtime (index out of range on
arr[4]), so no partial Account and no Root is produced; but no
SchemaMismatch error value is returned either. -/
theorem C6_short_entry_panics (t : JVal) (h : hasShortAccountEntry t) :
    mapRecords t = .panicked := by
  unfold mapRecords
  rw [mapRoot_short t h]

theorem C6_short_entry_panics_witness : mapRecords shortTree2 = .panicked :=
  C6_short_entry_panics shortTree2
    ⟨[.num 2, .arr [.arr [.num 1, .num 0, .str "t", .num 0, goodWallet],
        .arr [.num 1, .num 2, .str "u", .num 3]]],
      [.arr [.num 1, .num 0, .str "t", .num 0, goodWallet],
        .arr [.num 1, .num 2, .str "u", .num 3]],
      [.num 1, .num 2, .str "u", .num 3],
      rfl, rfl, List.mem_cons_of_mem _ (List.mem_cons_self _ _), rfl⟩

/-- C6 counterexample: on a tree with a 4-element account entry the mapping
panics; it does not return the SchemaMismatch error the claim states. -/
theorem C6_counterexample :
    mapRecords shortTree = .panicked ∧
    mapRecords shortTree ≠ .err .schemaMismatch := by decide

/-- C7 (amended): replacing an interior character (position 1 or 2) of one
word of a valid standard-variant encoding with a different non-space
character makes decode fail with the corrupt-word error; a space
replacement instead splits the token (see the counterexample). -/
theorem C7_interior_corruption (B : List Nat) (k j c : Nat)
    (hB : ∀ b ∈ B, b < 256) (hk : k < B.length + 4) (hj : j = 1 ∨ j = 2)
    (_hc256 : c < 256) (hc32 : c ≠ 32)
    (hdiff : c ≠ (encodeStandard B).getD (5 * k + j) 0) :
    decode .standard ((encodeStandard B).set (5 * k + j) c) = .err .corruptWord :=
  standard_corrupt B k j c hB hk hj hc32 hdiff

theorem C7_interior_corruption_witness :
    decode .standard ((encodeStandard [0]).set 1 120) = .err .corruptWord :=
  C7_interior_corruption [0] 0 1 120 (by decide) (by decide) (Or.inl rfl)
    (by decide) (by decide) (by decide)

/-- C7 counterexample: replacing the interior character with a space yields
the token-length error, not CorruptWord, because the word splits in two. -/
theorem C7_counterexample :
    decode .standard ((encodeStandard [0]).set 1 32) = .err .malformedLen := by decide

/-- C8 (amended): minimal-variant decoding is case-insensitive - decoding
any input equals decoding its ASCII-lowercased form - and a minimal token
character normalizing outside a-z is exactly what produces the
out-of-alphabet error; the standard variant normalizes case only for a
word's first and last characters (see the counterexample). -/
theorem C8_case_normalization :
    (∀ s : List Nat, decode .minimal (s.map lowerAscii) = decode .minimal s) ∧
    (∀ t : List Nat, decodeWord t 2 = .error .outOfAlphabet ↔
      t.length = 2 ∧ ¬(97 ≤ goToLower (t.getD 0 0) ∧ goToLower (t.getD 0 0) ≤ 122 ∧
        97 ≤ goToLower (t.getD 1 0) ∧ goToLower (t.getD 1 0) ≤ 122)) :=
  ⟨decode_minimal_lower, decodeWord2_outOfAlphabet⟩

/-- C8 counterexample: uppercasing the interior character of a word of a
valid standard-variant encoding changes the decode result - the original
input fails with corrupt-word while its lowercased form succeeds - so
standard-variant decoding is not invariant under lowercasing the input. -/
theorem C8_counterexample :
    decode .standard ((encodeStandard [0]).set 1 66) = .err .corruptWord ∧
    decode .standard (((encodeStandard [0]).set 1 66).map lowerAscii) = .ok [0] ∧
    decode .standard ((encodeStandard [0]).set 1 66) ≠
      decode .standard (((encodeStandard [0]).set 1 66).map lowerAscii) := by decide

/-- C9: the checksum is the 4-byte big-endian serialization of the CRC-32
(IEEE polynomial - witnessed by the standard check value on "123456789")
of the body, its bytes are genuine bytes, verification compares
byte-for-byte (equal is equality), and a successful decode stored exactly
the recomputed checksum of the returned body. Determinism and freedom from
side effects hold by construction in this pure model. -/
theorem C9_checksum :
    crc32IEEE [49, 50, 51, 52, 53, 54, 55, 56, 57] = 0xCBF43926 ∧
    (∀ data : List Nat, crc32Bytes data =
      [crc32IEEE data / 2 ^ 24 % 256, crc32IEEE data / 2 ^ 16 % 256,
        crc32IEEE data / 2 ^ 8 % 256, crc32IEEE data % 256] ∧
      (crc32Bytes data).length = 4 ∧ ∀ b ∈ crc32Bytes data, b < 256) ∧
    (∀ a b : List Nat, equal a b = true ↔ a = b) ∧
    (∀ (v : Variant) (s body : List Nat), decode v s = .ok body →
      ∃ toks buf, tokensOf v s = some toks ∧
        decodeTokens toks (wordLenOf v) = .ok buf ∧
        body = buf.take (buf.length - 4) ∧
        buf.drop (buf.length - 4) = crc32Bytes body) := by
  refine ⟨by decide, ?_, equal_iff, ?_⟩
  · intro data
    exact ⟨rfl, rfl, crc32Bytes_lt data⟩
  · intro v s body h
    obtain ⟨toks, buf, htk, hdt, hlen, hbody, hcrc⟩ := (decode_ok_iff v s body).mp h
    exact ⟨toks, buf, htk, hdt, hbody, hcrc⟩

theorem C9_checksum_witness :
    ∃ toks buf, tokensOf .minimal (encodeMinimal [1]) = some toks ∧
      decodeTokens toks (wordLenOf .minimal) = .ok buf ∧
      [1] = buf.take (buf.length - 4) ∧
      buf.drop (buf.length - 4) = crc32Bytes [1] :=
  C9_checksum.2.2.2 .minimal (encodeMinimal [1]) [1] (by decide)

/-- C10: the minimal-variant encoding of an n-byte sequence has exactly
2*(n+4) characters and the standard-variant encoding exactly 5*(n+4)-1
characters (4 per byte plus the n+3 single-space separators). -/
theorem C10_encoding_lengths (B : List Nat) (hB : ∀ b ∈ B, b < 256) :
    (encodeMinimal B).length = 2 * (B.length + 4) ∧
    (encodeStandard B).length = 5 * (B.length + 4) - 1 :=
  ⟨encodeMinimal_length B, encodeStandard_length B hB⟩

theorem C10_encoding_lengths_witness :
    (encodeMinimal [9]).length = 2 * ([9].length + 4) ∧
    (encodeStandard [9]).length = 5 * ([9].length + 4) - 1 :=
  C10_encoding_lengths [9] (by decide)

end BCUR
